import Mathlib

/-!
Verification of the specific-head solver in `main.py`.

The script computes, for a discharge per unit width `q`, a channel bottom
elevation `ho` and a bottom elevation change `delta_h`:

* `d = np.linspace(0.01, 10, 100)` and `Ho = q ** 2 / (2 * g * d ** 2) + d`
  (the sampled specific-head curve, lines 55-56);
* `d1 = ho + q ** 2 / (2 * g * ho ** 2)` (line 60);
* `Ho1 = ho + d1`, `Ho2 = Ho1 - delta_h` (lines 61-62);
* `d2 = np.interp(Ho2, df["Specific Head"], df["Depth"])` (line 63);
* `U1 = q / d1`, `U2 = q / d2`, `Fr1 = U1 / np.sqrt(g * d1)`,
  `Fr2 = U2 / np.sqrt(g * d2)` (lines 66-69).

All float arithmetic is embedded as exact rational arithmetic (`ℚ`); the
real-analytic facts about the curve shape are stated over `ℝ`.  The two
divisions performed by pure Python floats (lines 60 and 66) raise
`ZeroDivisionError` on a zero divisor, so the pipeline is embedded in
`Option`; numpy operations (the interpolation and the numpy-scalar
divisions of lines 67-69) never raise and are embedded as total functions.
-/

namespace Main

/-- The gravitational constant `g = 9.81` of `main.py` line 14. -/
def g : ℚ := 981 / 100

/-- The specific-head formula of `main.py` line 56:
`Ho = q ** 2 / (2 * g * d ** 2) + d`, as a function of the depth. -/
def Ho (q d : ℚ) : ℚ := q ^ 2 / (2 * g * d ^ 2) + d

/-- The number of curve samples: `np.linspace(0.01, 10, 100)` has 100 points. -/
def sampleCount : ℕ := 100

/-- Sample `i` of `np.linspace(0.01, 10, 100)` (line 55): the start `0.01`
plus `i` times the step `(10 - 0.01) / 99 = 111/1100`. -/
def dSample (i : ℕ) : ℚ := 1 / 100 + i * (111 / 1100)

/-- The sampled depth column `df["Depth"]` (lines 55, 57). -/
def dList : List ℚ := (List.range sampleCount).map dSample

/-- The sampled specific-head column `df["Specific Head"]` (lines 56-57). -/
def HoList (q : ℚ) : List ℚ := (List.range sampleCount).map (fun i => Ho q (dSample i))

/-- Total list access with numpy's in-bounds reads modelled by `List.getD`
(all accesses proved in bounds where it matters). -/
def getQ (l : List ℚ) (i : ℕ) : ℚ := l.getD i 0

/-- The bisection loop of numpy's `binary_search_with_guess`
(`numpy/core/src/multiarray/compiled_base.c`): while `imin < imax`, probe
`imid = imin + (imax - imin)/2`; keys `≥ arr[imid]` move `imin` up, others
move `imax` down; the loop returns the final `imin`.  The fuel argument is
instantiated with `imax - imin`, which bounds the iteration count. -/
def bisectAux (key : ℚ) (xp : List ℚ) : ℕ → ℕ → ℕ → ℕ
  | 0, imin, _ => imin
  | fuel + 1, imin, imax =>
    if imin < imax then
      let imid := imin + (imax - imin) / 2
      if getQ xp imid ≤ key then bisectAux key xp fuel (imid + 1) imax
      else bisectAux key xp fuel imin imid
    else imin

/-- The bisection loop run to completion. -/
def bisect (key : ℚ) (xp : List ℚ) (imin imax : ℕ) : ℕ :=
  bisectAux key xp (imax - imin) imin imax

/-- numpy's `binary_search_with_guess` as invoked by `np.interp` on a scalar
query (the only use in `main.py` line 63): the running guess starts at 0 and
is clamped up to 1, and the sample arrays here have length 100 ≥ 5, so the
probe inspects indices 1, 2, 3 and possibly narrows to index 9
(`LIKELY_IN_CACHE_SIZE = 8`).  Returns `-1` for keys left of `xp[0]`,
`xp.length` for keys right of `xp[length-1]`, else the bisection result
minus one. -/
def binarySearchGuess (key : ℚ) (xp : List ℚ) : ℤ :=
  let n := xp.length
  if getQ xp (n - 1) < key then (n : ℤ)
  else if key < getQ xp 0 then -1
  else if key < getQ xp 1 then 0
  else if key < getQ xp 2 then 1
  else if key < getQ xp 3 then 2
  else
    let imax := if 1 + 9 < n ∧ key < getQ xp 9 then 9 else n
    (bisect key xp 3 imax : ℤ) - 1

/-- numpy's `arr_interp` (`np.interp`) on a scalar query: out-of-range keys
are clamped to the first/last `fp` value, a search result of `length - 1` or
an exact `xp` match returns the sample value, and otherwise the result is
`slope * (x - xp[j]) + fp[j]` with `slope = (fp[j+1] - fp[j]) / (xp[j+1] - xp[j])`. -/
def npInterp (x : ℚ) (xp fp : List ℚ) : ℚ :=
  let n := xp.length
  let j := binarySearchGuess x xp
  if j = -1 then getQ fp 0
  else if j = (n : ℤ) then getQ fp (n - 1)
  else if j = (n : ℤ) - 1 then getQ fp (n - 1)
  else
    let jn := j.toNat
    if getQ xp jn = x then getQ fp jn
    else (getQ fp (jn + 1) - getQ fp jn) / (getQ xp (jn + 1) - getQ xp jn) * (x - getQ xp jn)
      + getQ fp jn

/-- Pure-Python float division: raises `ZeroDivisionError` on a zero divisor,
modelled by `none`. -/
def pyDiv (a b : ℚ) : Option ℚ := if b = 0 then none else some (a / b)

/-- The six rational quantities computed by `main.py` lines 60-67. -/
structure FlowResult where
  d1 : ℚ
  Ho1 : ℚ
  Ho2 : ℚ
  d2 : ℚ
  U1 : ℚ
  U2 : ℚ
deriving DecidableEq

/-- The computation of `main.py` lines 60-67 for inputs `(q, ho, delta_h)`.
Lines 60 and 66 divide pure Python floats (fallible); line 63 is `np.interp`
(total) and line 67 divides by a numpy scalar (total, never raises). -/
def computeStates (q ho delta_h : ℚ) : Option FlowResult := do
  let vhead ← pyDiv (q ^ 2) (2 * g * ho ^ 2)
  let d1 := ho + vhead
  let Ho1 := ho + d1
  let Ho2 := Ho1 - delta_h
  let d2 := npInterp Ho2 (HoList q) dList
  let U1 ← pyDiv q d1
  let U2 := q / d2
  pure { d1 := d1, Ho1 := Ho1, Ho2 := Ho2, d2 := d2, U1 := U1, U2 := U2 }

noncomputable section

/-- The constant g = 9.81 over the reals, for the analytic facts about the curve. -/
def gR : ℝ := 981 / 100

/-- The specific-head function of line 56 over the reals. -/
def HoR (q d : ℝ) : ℝ := q ^ 2 / (2 * gR * d ^ 2) + d

/-- The Froude-number formula of lines 68-69: `U / np.sqrt(g * d)` with `U = q / d`. -/
def froude (q d : ℝ) : ℝ := (q / d) / Real.sqrt (gR * d)

/-- The critical depth `(q² / g)^(1/3)` minimising the specific head. -/
def criticalDepth (q : ℝ) : ℝ := (q ^ 2 / gR) ^ ((1 : ℝ) / 3)

end



/-! ### Properties of the bisection search and of `npInterp` -/

lemma bisectAux_spec (key : ℚ) (xp : List ℚ) :
    ∀ fuel imin imax : ℕ, imin ≤ imax → imax - imin ≤ fuel →
      imin ≤ bisectAux key xp fuel imin imax ∧
      bisectAux key xp fuel imin imax ≤ imax ∧
      (imin < bisectAux key xp fuel imin imax →
        getQ xp (bisectAux key xp fuel imin imax - 1) ≤ key) ∧
      (bisectAux key xp fuel imin imax < imax →
        key < getQ xp (bisectAux key xp fuel imin imax)) := by
  intro fuel
  induction fuel with
  | zero =>
    intro imin imax h1 h2
    have he : imin = imax := by omega
    subst he
    simp only [bisectAux]
    exact ⟨le_refl _, le_refl _, fun h => absurd h (lt_irrefl _),
      fun h => absurd h (lt_irrefl _)⟩
  | succ fuel ih =>
    intro imin imax h1 h2
    by_cases hlt : imin < imax
    · have hmid1 : imin ≤ imin + (imax - imin) / 2 := by omega
      have hmid2 : imin + (imax - imin) / 2 < imax := by omega
      by_cases hcmp : getQ xp (imin + (imax - imin) / 2) ≤ key
      · have hstep : bisectAux key xp (fuel + 1) imin imax =
            bisectAux key xp fuel (imin + (imax - imin) / 2 + 1) imax := by
          simp only [bisectAux, if_pos hlt, if_pos hcmp]
        rw [hstep]
        obtain ⟨a, b, c, d⟩ := ih (imin + (imax - imin) / 2 + 1) imax (by omega) (by omega)
        refine ⟨by omega, b, ?_, d⟩
        intro _
        rcases Nat.lt_or_ge (imin + (imax - imin) / 2 + 1)
            (bisectAux key xp fuel (imin + (imax - imin) / 2 + 1) imax) with hc | hc
        · exact c hc
        · have he : bisectAux key xp fuel (imin + (imax - imin) / 2 + 1) imax =
              imin + (imax - imin) / 2 + 1 := by omega
          rw [he]
          simpa using hcmp
      · have hstep : bisectAux key xp (fuel + 1) imin imax =
            bisectAux key xp fuel imin (imin + (imax - imin) / 2) := by
          simp only [bisectAux, if_pos hlt, if_neg hcmp]
        rw [hstep]
        obtain ⟨a, b, c, d⟩ := ih imin (imin + (imax - imin) / 2) (by omega) (by omega)
        refine ⟨a, by omega, c, ?_⟩
        intro _
        rcases Nat.lt_or_ge (bisectAux key xp fuel imin (imin + (imax - imin) / 2))
            (imin + (imax - imin) / 2) with hc | hc
        · exact d hc
        · have he : bisectAux key xp fuel imin (imin + (imax - imin) / 2) =
              imin + (imax - imin) / 2 := by omega
          rw [he]
          exact lt_of_not_le hcmp
    · have hstep : bisectAux key xp (fuel + 1) imin imax = imin := by
        simp only [bisectAux, if_neg hlt]
      rw [hstep]
      exact ⟨le_refl _, h1, fun h => absurd h (lt_irrefl _),
        fun h => absurd h (by omega)⟩

lemma bisect_spec (key : ℚ) (xp : List ℚ) (imin imax : ℕ) (h : imin ≤ imax) :
    imin ≤ bisect key xp imin imax ∧ bisect key xp imin imax ≤ imax ∧
      (imin < bisect key xp imin imax → getQ xp (bisect key xp imin imax - 1) ≤ key) ∧
      (bisect key xp imin imax < imax → key < getQ xp (bisect key xp imin imax)) :=
  bisectAux_spec key xp (imax - imin) imin imax h (le_refl _)

lemma binarySearchGuess_spec (key : ℚ) (xp : List ℚ) (hn : 11 ≤ xp.length) :
    (binarySearchGuess key xp = (xp.length : ℤ) ∧ getQ xp (xp.length - 1) < key) ∨
    (binarySearchGuess key xp = -1 ∧ key < getQ xp 0) ∨
    (∃ j : ℕ, binarySearchGuess key xp = (j : ℤ) ∧ j < xp.length ∧ getQ xp j ≤ key ∧
      (j + 1 < xp.length → key < getQ xp (j + 1))) := by
  unfold binarySearchGuess
  by_cases h1 : getQ xp (xp.length - 1) < key
  · simp only [if_pos h1]
    exact Or.inl ⟨by simp, h1⟩
  · simp only [if_neg h1]
    by_cases h2 : key < getQ xp 0
    · simp only [if_pos h2]
      exact Or.inr (Or.inl ⟨by simp, h2⟩)
    · simp only [if_neg h2]
      by_cases h3 : key < getQ xp 1
      · simp only [if_pos h3]
        exact Or.inr (Or.inr ⟨0, rfl, by omega, le_of_not_lt h2, fun _ => h3⟩)
      · simp only [if_neg h3]
        by_cases h4 : key < getQ xp 2
        · simp only [if_pos h4]
          exact Or.inr (Or.inr ⟨1, rfl, by omega, le_of_not_lt h3, fun _ => h4⟩)
        · simp only [if_neg h4]
          by_cases h5 : key < getQ xp 3
          · simp only [if_pos h5]
            exact Or.inr (Or.inr ⟨2, rfl, by omega, le_of_not_lt h4, fun _ => h5⟩)
          · simp only [if_neg h5]
            by_cases h6 : 1 + 9 < xp.length ∧ key < getQ xp 9
            · simp only [if_pos h6]
              obtain ⟨a, b, c, d⟩ := bisect_spec key xp 3 9 (by omega)
              have hm4 : 4 ≤ bisect key xp 3 9 := by
                rcases Nat.lt_or_ge 3 (bisect key xp 3 9) with hc | hc
                · omega
                · have he : bisect key xp 3 9 = 3 := by omega
                  exact absurd (he ▸ d (by omega)) h5
              refine Or.inr (Or.inr ⟨bisect key xp 3 9 - 1, by omega, by omega,
                c (by omega), fun _ => ?_⟩)
              have he : bisect key xp 3 9 - 1 + 1 = bisect key xp 3 9 := by omega
              rw [he]
              rcases Nat.lt_or_ge (bisect key xp 3 9) 9 with hc | hc
              · exact d hc
              · have he2 : bisect key xp 3 9 = 9 := by omega
                rw [he2]
                exact h6.2
            · simp only [if_neg h6]
              obtain ⟨a, b, c, d⟩ := bisect_spec key xp 3 xp.length (by omega)
              have hm4 : 4 ≤ bisect key xp 3 xp.length := by
                rcases Nat.lt_or_ge 3 (bisect key xp 3 xp.length) with hc | hc
                · omega
                · have he : bisect key xp 3 xp.length = 3 := by omega
                  exact absurd (he ▸ d (by omega)) h5
              refine Or.inr (Or.inr ⟨bisect key xp 3 xp.length - 1, by omega,
                by omega, c (by omega), fun hlt => ?_⟩)
              have he : bisect key xp 3 xp.length - 1 + 1 = bisect key xp 3 xp.length := by
                omega
              rw [he]
              exact d (by omega)



lemma npInterp_mem (x : ℚ) (xp fp : List ℚ) (lo hi : ℚ) (hn : 11 ≤ xp.length)
    (hlen : fp.length = xp.length)
    (hbound : ∀ i, i < fp.length → lo ≤ getQ fp i ∧ getQ fp i ≤ hi) :
    lo ≤ npInterp x xp fp ∧ npInterp x xp fp ≤ hi := by
  have hb0 := hbound 0 (by omega)
  have hblast := hbound (xp.length - 1) (by omega)
  simp only [npInterp]
  rcases binarySearchGuess_spec x xp hn with ⟨hr, hk⟩ | ⟨hr, hk⟩ | ⟨j, hr, hj, hk1, hk2⟩
  · rw [hr, if_neg (by omega), if_pos rfl]
    exact hblast
  · rw [hr, if_pos rfl]
    exact hb0
  · rw [hr, if_neg (by omega), if_neg (by omega)]
    by_cases hcase : j = xp.length - 1
    · rw [if_pos (by omega)]
      exact hblast
    · rw [if_neg (by omega)]
      rw [Int.toNat_natCast]
      by_cases hx : getQ xp j = x
      · rw [if_pos hx]
        exact hbound j (by omega)
      · rw [if_neg hx]
        have hj1 : j + 1 < xp.length := by omega
        have hvx : x < getQ xp (j + 1) := hk2 hj1
        have hux : getQ xp j < x := lt_of_le_of_ne hk1 hx
        have hA := hbound j (by omega)
        have hB := hbound (j + 1) (by omega)
        set A := getQ fp j with hAdef
        set B := getQ fp (j + 1) with hBdef
        set u := getQ xp j with hudef
        set v := getQ xp (j + 1) with hvdef
        have hD : 0 < v - u := by linarith
        set t := (x - u) / (v - u) with htdef
        have ht0 : 0 ≤ t := div_nonneg (by linarith) (by linarith)
        have ht1 : t ≤ 1 := (div_le_one hD).mpr (by linarith)
        have he : (B - A) / (v - u) * (x - u) + A = (1 - t) * A + t * B := by
          rw [htdef]; ring
        rw [he]
        constructor
        · have h1 : (1 - t) * lo ≤ (1 - t) * A :=
            mul_le_mul_of_nonneg_left hA.1 (by linarith)
          have h2 : t * lo ≤ t * B := mul_le_mul_of_nonneg_left hB.1 ht0
          have hsum : (1 - t) * lo + t * lo = lo := by ring
          linarith
        · have h1 : (1 - t) * A ≤ (1 - t) * hi :=
            mul_le_mul_of_nonneg_left hA.2 (by linarith)
          have h2 : t * B ≤ t * hi := mul_le_mul_of_nonneg_left hB.2 ht0
          have hsum : (1 - t) * hi + t * hi = hi := by ring
          linarith

lemma getQ_lt_of_adj (xp : List ℚ)
    (hadj : ∀ i, i + 1 < xp.length → getQ xp i < getQ xp (i + 1)) :
    ∀ i j, i < j → j < xp.length → getQ xp i < getQ xp j := by
  intro i j
  induction j with
  | zero => intro h1 _; exact absurd h1 (by omega)
  | succ k ih =>
    intro h1 h2
    rcases Nat.lt_or_ge i k with hc | hc
    · exact lt_trans (ih hc (by omega)) (hadj k h2)
    · have he : i = k := by omega
      subst he
      exact hadj i h2

lemma npInterp_at_sample (xp fp : List ℚ) (hn : 11 ≤ xp.length)
    (hadj : ∀ i, i + 1 < xp.length → getQ xp i < getQ xp (i + 1))
    (i : ℕ) (hi : i < xp.length) :
    npInterp (getQ xp i) xp fp = getQ fp i := by
  have hmono := getQ_lt_of_adj xp hadj
  simp only [npInterp]
  rcases binarySearchGuess_spec (getQ xp i) xp hn
    with ⟨hr, hk⟩ | ⟨hr, hk⟩ | ⟨j, hr, hj, hk1, hk2⟩
  · exfalso
    rcases Nat.lt_or_ge i (xp.length - 1) with hc | hc
    · exact absurd (hmono i (xp.length - 1) hc (by omega)) (by linarith)
    · have he : i = xp.length - 1 := by omega
      rw [he] at hk
      exact lt_irrefl _ hk
  · exfalso
    rcases Nat.eq_zero_or_pos i with hc | hc
    · rw [hc] at hk
      exact lt_irrefl _ hk
    · exact absurd (hmono 0 i hc hi) (by linarith)
  · rw [hr, if_neg (by omega), if_neg (by omega)]
    by_cases hcase : j = xp.length - 1
    · rw [if_pos (by omega)]
      have he : i = xp.length - 1 := by
        by_contra hne
        have hlt : i < xp.length - 1 := by omega
        have := hmono i (xp.length - 1) hlt (by omega)
        rw [← hcase] at this
        linarith
      rw [he]
    · rw [if_neg (by omega)]
      have hj1 : j + 1 < xp.length := by omega
      have hklt := hk2 hj1
      have hij : i = j := by
        by_contra hne
        rcases Nat.lt_or_ge i j with hc | hc
        · have := hmono i j hc (by omega)
          linarith
        · rcases Nat.lt_or_ge (j + 1) i with hc3 | hc3
          · have := hmono (j + 1) i hc3 hi
            linarith
          · have he : i = j + 1 := by omega
            rw [he] at hklt
            exact absurd hklt (lt_irrefl _)
      subst hij
      rw [Int.toNat_natCast, if_pos rfl]


/-! ### The concrete sampled curve -/

lemma dList_length : dList.length = 100 := by
  simp [dList, sampleCount]

lemma HoList_length (q : ℚ) : (HoList q).length = 100 := by
  simp [HoList, sampleCount]

lemma getQ_dList (i : ℕ) (hi : i < 100) : getQ dList i = dSample i := by
  rw [getQ, dList, sampleCount]
  rw [List.getD_eq_getElem _ _ (by simpa using hi)]
  simp

lemma getQ_HoList (q : ℚ) (i : ℕ) (hi : i < 100) :
    getQ (HoList q) i = Ho q (dSample i) := by
  rw [getQ, HoList, sampleCount]
  rw [List.getD_eq_getElem _ _ (by simpa using hi)]
  simp

lemma dSample_bounds (i : ℕ) (hi : i < 100) :
    1 / 100 ≤ dSample i ∧ dSample i ≤ 10 := by
  have hc : (i : ℚ) ≤ 99 := by
    exact_mod_cast Nat.le_of_lt_succ (by omega)
  have h0 : (0 : ℚ) ≤ (i : ℚ) := Nat.cast_nonneg i
  constructor
  · rw [dSample]
    nlinarith
  · rw [dSample]
    nlinarith

/-- Evaluation of the pipeline for a positive bottom elevation: both Python
float divisions succeed and the program produces all six quantities. -/
lemma computeStates_eq (q ho delta_h : ℚ) (h : 0 < ho) :
    computeStates q ho delta_h = some
      { d1 := ho + q ^ 2 / (2 * g * ho ^ 2),
        Ho1 := ho + (ho + q ^ 2 / (2 * g * ho ^ 2)),
        Ho2 := ho + (ho + q ^ 2 / (2 * g * ho ^ 2)) - delta_h,
        d2 := npInterp (ho + (ho + q ^ 2 / (2 * g * ho ^ 2)) - delta_h) (HoList q) dList,
        U1 := q / (ho + q ^ 2 / (2 * g * ho ^ 2)),
        U2 := q / npInterp (ho + (ho + q ^ 2 / (2 * g * ho ^ 2)) - delta_h) (HoList q) dList } := by
  have hsq : (0 : ℚ) < ho ^ 2 := pow_pos h 2
  have hg : (0 : ℚ) < 2 * g * ho ^ 2 := by
    rw [g]
    linarith
  have hd1 : 0 < ho + q ^ 2 / (2 * g * ho ^ 2) :=
    add_pos_of_pos_of_nonneg h (div_nonneg (sq_nonneg q) hg.le)
  simp [computeStates, pyDiv, hg.ne', hd1.ne']


/-! ### Shape of the specific-head curve over the reals -/

lemma gR_pos : (0 : ℝ) < gR := by
  rw [gR]
  norm_num

lemma criticalDepth_pos {q : ℝ} (hq : 0 < q) : 0 < criticalDepth q :=
  Real.rpow_pos_of_pos (div_pos (pow_pos hq 2) gR_pos) _

lemma criticalDepth_cube {q : ℝ} (hq : 0 < q) :
    criticalDepth q ^ 3 = q ^ 2 / gR := by
  rw [criticalDepth]
  rw [← Real.rpow_natCast ((q ^ 2 / gR) ^ ((1 : ℝ) / 3)) 3]
  rw [← Real.rpow_mul (le_of_lt (div_pos (pow_pos hq 2) gR_pos))]
  norm_num

lemma q_sq_eq {q : ℝ} (hq : 0 < q) : q ^ 2 = gR * criticalDepth q ^ 3 := by
  rw [criticalDepth_cube hq, mul_div_cancel₀ _ gR_pos.ne']

lemma HoR_sub (q a b : ℝ) (ha : a ≠ 0) (hb : b ≠ 0) :
    HoR q b - HoR q a =
      (b - a) * (2 * gR * a ^ 2 * b ^ 2 - q ^ 2 * (a + b)) / (2 * gR * a ^ 2 * b ^ 2) := by
  have hg := gR_pos
  rw [HoR, HoR]
  field_simp
  ring

lemma HoR_strict_mono {q : ℝ} (hq : 0 < q) :
    StrictMonoOn (HoR q) (Set.Ici (criticalDepth q)) := by
  intro a ha b hb hab
  rw [Set.mem_Ici] at ha hb
  have hdc := criticalDepth_pos hq
  have ha0 : 0 < a := lt_of_lt_of_le hdc ha
  have hb0 : 0 < b := lt_of_lt_of_le hdc hb
  have h1 : criticalDepth q ^ 3 ≤ a ^ 3 := pow_le_pow_left₀ hdc.le ha 3
  have h3 : criticalDepth q ^ 3 * (a + b) ≤ a ^ 3 * (a + b) :=
    mul_le_mul_of_nonneg_right h1 (by linarith)
  have h4 : a ^ 3 * (a + b) < 2 * (a ^ 2 * b ^ 2) := by
    nlinarith [mul_pos (pow_pos ha0 2)
      (mul_pos (sub_pos.mpr hab) (show (0 : ℝ) < 2 * b + a by linarith))]
  have key : 0 < 2 * gR * a ^ 2 * b ^ 2 - q ^ 2 * (a + b) := by
    have h5 : q ^ 2 * (a + b) = gR * (criticalDepth q ^ 3 * (a + b)) := by
      rw [q_sq_eq hq]
      ring
    have h6 : gR * (criticalDepth q ^ 3 * (a + b)) ≤ gR * (a ^ 3 * (a + b)) :=
      mul_le_mul_of_nonneg_left h3 gR_pos.le
    have h7 : gR * (a ^ 3 * (a + b)) < gR * (2 * (a ^ 2 * b ^ 2)) :=
      mul_lt_mul_of_pos_left h4 gR_pos
    nlinarith
  have hden : 0 < 2 * gR * a ^ 2 * b ^ 2 :=
    mul_pos (mul_pos (mul_pos two_pos gR_pos) (pow_pos ha0 2)) (pow_pos hb0 2)
  have hdiff : 0 < HoR q b - HoR q a := by
    rw [HoR_sub q a b ha0.ne' hb0.ne']
    exact div_pos (mul_pos (by linarith) key) hden
  linarith

lemma HoR_strict_anti {q : ℝ} (hq : 0 < q) :
    StrictAntiOn (HoR q) (Set.Ioc 0 (criticalDepth q)) := by
  intro a ha b hb hab
  rw [Set.mem_Ioc] at ha hb
  obtain ⟨ha0, had⟩ := ha
  obtain ⟨hb0, hbd⟩ := hb
  have hdc := criticalDepth_pos hq
  have hadlt : a < criticalDepth q := lt_of_lt_of_le hab hbd
  have h1 : a * b ^ 2 < criticalDepth q ^ 3 := by
    calc a * b ^ 2 ≤ a * criticalDepth q ^ 2 :=
          mul_le_mul_of_nonneg_left (pow_le_pow_left₀ hb0.le hbd 2) ha0.le
      _ < criticalDepth q * criticalDepth q ^ 2 :=
          mul_lt_mul_of_pos_right hadlt (pow_pos hdc 2)
      _ = criticalDepth q ^ 3 := by ring
  have h2 : a ^ 2 * b < criticalDepth q ^ 3 := by
    have ha2 : a ^ 2 < criticalDepth q ^ 2 := by nlinarith
    calc a ^ 2 * b < criticalDepth q ^ 2 * b := mul_lt_mul_of_pos_right ha2 hb0
      _ ≤ criticalDepth q ^ 2 * criticalDepth q :=
          mul_le_mul_of_nonneg_left hbd (sq_nonneg _)
      _ = criticalDepth q ^ 3 := by ring
  have h3 : 2 * (a ^ 2 * b ^ 2) < criticalDepth q ^ 3 * (a + b) := by
    nlinarith [mul_lt_mul_of_pos_left h1 ha0, mul_lt_mul_of_pos_left h2 hb0]
  have key : 2 * gR * a ^ 2 * b ^ 2 - q ^ 2 * (a + b) < 0 := by
    have h5 : q ^ 2 * (a + b) = gR * (criticalDepth q ^ 3 * (a + b)) := by
      rw [q_sq_eq hq]
      ring
    nlinarith [mul_lt_mul_of_pos_left h3 gR_pos]
  have hden : 0 < 2 * gR * a ^ 2 * b ^ 2 :=
    mul_pos (mul_pos (mul_pos two_pos gR_pos) (pow_pos ha0 2)) (pow_pos hb0 2)
  have hdiff : HoR q b - HoR q a < 0 := by
    rw [HoR_sub q a b ha0.ne' hb0.ne']
    exact div_neg_of_neg_of_pos (mul_neg_of_pos_of_neg (by linarith) key) hden
  linarith

lemma froude_critical {q : ℝ} (hq : 0 < q) : froude q (criticalDepth q) = 1 := by
  have hdc := criticalDepth_pos hq
  have hgd : 0 < gR * criticalDepth q := mul_pos gR_pos hdc
  have hs : Real.sqrt (gR * criticalDepth q) ^ 2 = gR * criticalDepth q :=
    Real.sq_sqrt hgd.le
  have hspos : 0 < Real.sqrt (gR * criticalDepth q) := Real.sqrt_pos.mpr hgd
  rw [froude, div_div, div_eq_one_iff_eq (mul_pos hdc hspos).ne']
  have hq2 : q ^ 2 = (criticalDepth q * Real.sqrt (gR * criticalDepth q)) ^ 2 := by
    rw [mul_pow, hs, q_sq_eq hq]
    ring
  nlinarith [hq2, mul_pos hdc hspos]


/-! ### Rational-side facts about the sampled curve -/

lemma g_pos : (0 : ℚ) < g := by
  rw [g]
  norm_num

/-- On depths at or above the critical depth (expressed as `q² ≤ g a³`),
the specific-head formula strictly increases. -/
lemma Ho_strict_mono_of (q a b : ℚ) (ha : 0 < a) (hab : a < b)
    (hcrit : q ^ 2 ≤ g * a ^ 3) : Ho q a < Ho q b := by
  have hb : 0 < b := lt_trans ha hab
  have hg := g_pos
  have h3 : q ^ 2 * (a + b) ≤ g * a ^ 3 * (a + b) :=
    mul_le_mul_of_nonneg_right (by nlinarith) (by linarith)
  have h4 : a ^ 3 * (a + b) < 2 * (a ^ 2 * b ^ 2) := by
    nlinarith [mul_pos (pow_pos ha 2)
      (mul_pos (sub_pos.mpr hab) (show (0 : ℚ) < 2 * b + a by linarith))]
  have key : 0 < 2 * g * a ^ 2 * b ^ 2 - q ^ 2 * (a + b) := by
    nlinarith [mul_lt_mul_of_pos_left h4 hg]
  have hden : 0 < 2 * g * a ^ 2 * b ^ 2 :=
    mul_pos (mul_pos (mul_pos two_pos hg) (pow_pos ha 2)) (pow_pos hb 2)
  have hsub : Ho q b - Ho q a =
      (b - a) * (2 * g * a ^ 2 * b ^ 2 - q ^ 2 * (a + b)) / (2 * g * a ^ 2 * b ^ 2) := by
    rw [Ho, Ho]
    field_simp
    ring
  have hpos : 0 < Ho q b - Ho q a := by
    rw [hsub]
    exact div_pos (mul_pos (sub_pos.mpr hab) key) hden
  linarith

/-- For q = 5 the specific head of every positive depth exceeds 2 (the
minimum over positive depths is ≈ 2.049 at the critical depth ≈ 1.366). -/
lemma Ho_five_gt_two (d : ℚ) (hd : 0 < d) : 2 < Ho 5 d := by
  have hd2 : (0 : ℚ) < d ^ 2 := pow_pos hd 2
  have hden : (0 : ℚ) < 2 * g * d ^ 2 := by
    have := g_pos
    nlinarith
  have key : 0 < 5 ^ 2 + 2 * g * d ^ 2 * (d - 2) := by
    rw [g]
    nlinarith [mul_nonneg hd.le (sq_nonneg (d - 4/3)), sq_nonneg (d - 4/3)]
  have hexp : Ho 5 d - 2 = (5 ^ 2 + 2 * g * d ^ 2 * (d - 2)) / (2 * g * d ^ 2) := by
    rw [Ho]
    field_simp
    ring
  have hpos : 0 < Ho 5 d - 2 := by
    rw [hexp]
    exact div_pos key hden
  linarith

lemma dSample_pos (i : ℕ) : 0 < dSample i := by
  rw [dSample]
  have h0 : (0 : ℚ) ≤ (i : ℚ) := Nat.cast_nonneg i
  nlinarith

lemma dSample_lt_succ (i : ℕ) : dSample i < dSample (i + 1) := by
  rw [dSample, dSample]
  push_cast
  nlinarith

/-- For i ≥ 14 the sample depth is at least 313/220 ≈ 1.423, which lies above
the critical depth for q = 5. -/
lemma dSample_ge_14 (i : ℕ) (hi : 14 ≤ i) : 313 / 220 ≤ dSample i := by
  rw [dSample]
  have hc : (14 : ℚ) ≤ (i : ℚ) := by exact_mod_cast hi
  nlinarith

/-- Adjacent sampled specific heads strictly increase for q = 1/1000 (the
critical depth 0.00467 lies below the first sample 0.01). -/
lemma HoList_small_adj (i : ℕ) (hi : i + 1 < 100) :
    getQ (HoList (1 / 1000)) i < getQ (HoList (1 / 1000)) (i + 1) := by
  rw [getQ_HoList _ i (by omega), getQ_HoList _ (i + 1) (by omega)]
  apply Ho_strict_mono_of _ _ _ (dSample_pos i) (dSample_lt_succ i)
  have h1 : (1 / 100 : ℚ) ≤ dSample i := (dSample_bounds i (by omega)).1
  have h3 : (1 / 100 : ℚ) ^ 3 ≤ dSample i ^ 3 := by
    exact pow_le_pow_left₀ (by norm_num) h1 3
  rw [g]
  nlinarith

/-- Adjacent sampled specific heads strictly increase for q = 5 from sample
14 on (the subcritical branch of the sampled curve). -/
lemma HoList_five_adj (i : ℕ) (h14 : 14 ≤ i) (hi : i + 1 < 100) :
    getQ (HoList 5) i < getQ (HoList 5) (i + 1) := by
  rw [getQ_HoList _ i (by omega), getQ_HoList _ (i + 1) (by omega)]
  apply Ho_strict_mono_of _ _ _ (dSample_pos i) (dSample_lt_succ i)
  have h1 := dSample_ge_14 i h14
  have h3 : (313 / 220 : ℚ) ^ 3 ≤ dSample i ^ 3 := by
    exact pow_le_pow_left₀ (by norm_num) h1 3
  rw [g]
  nlinarith

/-! ### Fast-path evaluations of `npInterp` -/

lemma binarySearchGuess_high (x : ℚ) (xp : List ℚ)
    (h1 : getQ xp (xp.length - 1) < x) :
    binarySearchGuess x xp = (xp.length : ℤ) := by
  simp only [binarySearchGuess]
  rw [if_pos h1]

lemma binarySearchGuess_low (x : ℚ) (xp : List ℚ)
    (h1 : ¬ getQ xp (xp.length - 1) < x) (h2 : x < getQ xp 0) :
    binarySearchGuess x xp = -1 := by
  simp only [binarySearchGuess]
  rw [if_neg h1, if_pos h2]

/-- A key to the right of the last sample is clamped to the last `fp` value. -/
lemma npInterp_high (x : ℚ) (xp fp : List ℚ) (h1 : getQ xp (xp.length - 1) < x) :
    npInterp x xp fp = getQ fp (xp.length - 1) := by
  simp only [npInterp]
  rw [binarySearchGuess_high x xp h1, if_neg (by omega), if_pos rfl]

/-- A key below the first sample is clamped to the first `fp` value. -/
lemma npInterp_low (x : ℚ) (xp fp : List ℚ) (h1 : ¬ getQ xp (xp.length - 1) < x)
    (h2 : x < getQ xp 0) : npInterp x xp fp = getQ fp 0 := by
  simp only [npInterp]
  rw [binarySearchGuess_low x xp h1 h2, if_pos rfl]


/-! ### Concrete evaluations -/

lemma HoList_five_last : getQ (HoList 5) 99 = 19645 / 1962 := by
  rw [getQ_HoList 5 99 (by norm_num)]
  simp only [Ho, dSample, g]
  push_cast
  norm_num

lemma HoList_five_first : getQ (HoList 5) 0 = 1250000981 / 98100 := by
  rw [getQ_HoList 5 0 (by norm_num)]
  simp only [Ho, dSample, g]
  push_cast
  norm_num

lemma dList_first : getQ dList 0 = 1 / 100 := by
  rw [getQ_dList 0 (by norm_num)]
  simp only [dSample]
  push_cast
  norm_num

lemma dList_last : getQ dList 99 = 10 := by
  rw [getQ_dList 99 (by norm_num)]
  simp only [dSample]
  push_cast
  norm_num

lemma d2_at_5_5_0 : npInterp (9860 / 981) (HoList 5) dList = 10 := by
  have h1 : getQ (HoList 5) ((HoList 5).length - 1) < 9860 / 981 := by
    rw [HoList_length]
    show getQ (HoList 5) 99 < 9860 / 981
    rw [HoList_five_last]
    norm_num
  rw [npInterp_high (9860 / 981) (HoList 5) dList h1, HoList_length]
  show getQ dList 99 = 10
  exact dList_last

lemma d2_at_5_1_2 : npInterp (1250 / 981) (HoList 5) dList = 1 / 100 := by
  have h1 : ¬ getQ (HoList 5) ((HoList 5).length - 1) < 1250 / 981 := by
    rw [HoList_length]
    show ¬ getQ (HoList 5) 99 < 1250 / 981
    rw [HoList_five_last]
    norm_num
  have h2 : (1250 / 981 : ℚ) < getQ (HoList 5) 0 := by
    rw [HoList_five_first]
    norm_num
  rw [npInterp_low (1250 / 981) (HoList 5) dList h1 h2]
  exact dList_first

lemma computeStates_5_5_0 : computeStates 5 5 0 = some
    { d1 := 4955 / 981, Ho1 := 9860 / 981, Ho2 := 9860 / 981, d2 := 10,
      U1 := 981 / 991, U2 := 1 / 2 } := by
  rw [computeStates_eq 5 5 0 (by norm_num)]
  have hkey : (5 : ℚ) + (5 + 5 ^ 2 / (2 * g * 5 ^ 2)) - 0 = 9860 / 981 := by
    rw [g]
    norm_num
  rw [hkey, d2_at_5_5_0, g]
  norm_num [Option.some.injEq, FlowResult.mk.injEq]

lemma computeStates_5_1_2 : computeStates 5 1 2 = some
    { d1 := 2231 / 981, Ho1 := 3212 / 981, Ho2 := 1250 / 981, d2 := 1 / 100,
      U1 := 4905 / 2231, U2 := 500 } := by
  rw [computeStates_eq 5 1 2 (by norm_num)]
  have hkey : (1 : ℚ) + (1 + 5 ^ 2 / (2 * g * 1 ^ 2)) - 2 = 1250 / 981 := by
    rw [g]
    norm_num
  rw [hkey, d2_at_5_1_2, g]
  norm_num [Option.some.injEq, FlowResult.mk.injEq]

lemma computeStates_zero_ho (q delta_h : ℚ) : computeStates q 0 delta_h = none := by
  simp [computeStates, pyDiv]


/-- The sampled specific heads for q = 5 strictly increase from sample 14 on
(the subcritical branch: sample 14 at depth ≈ 1.423 lies above the critical
depth ≈ 1.366). -/
lemma HoList_five_chain_drop14 :
    List.Chain' (fun a b => a < b) ((HoList 5).drop 14) := by
  rw [List.chain'_iff_get]
  intro i h
  rw [List.length_drop, HoList_length] at h
  simp only [List.get_eq_getElem]
  rw [List.getElem_drop, List.getElem_drop]
  rw [← List.getD_eq_getElem _ 0, ← List.getD_eq_getElem _ 0]
  show getQ (HoList 5) (14 + i) < getQ (HoList 5) (14 + i + 1)
  exact HoList_five_adj (14 + i) (by omega) (by omega)

/-- The specific head of the first sampled depth for q = 5 is ≈ 12742. -/
lemma Ho_five_first_sample_large : 1000 < Ho 5 (1 / 100 : ℚ) := by
  simp only [Ho, g]
  norm_num

/-- Inverting the q = 5 curve at the specific head of sample 50 returns the
first sampled depth 0.01: the key is below the first sampled head (≈ 12742)
and not above the last (≈ 10.013), so numpy's search reports "left of
range" and clamps. -/
lemma npInterp_at_sample50_five :
    npInterp (getQ (HoList 5) 50) (HoList 5) dList = 1 / 100 := by
  have h1 : ¬ getQ (HoList 5) ((HoList 5).length - 1) < getQ (HoList 5) 50 := by
    rw [HoList_length]
    show ¬ getQ (HoList 5) 99 < getQ (HoList 5) 50
    rw [HoList_five_last, getQ_HoList 5 50 (by norm_num)]
    simp only [Ho, dSample, g]
    push_cast
    norm_num
  have h2 : getQ (HoList 5) 50 < getQ (HoList 5) 0 := by
    rw [HoList_five_first, getQ_HoList 5 50 (by norm_num)]
    simp only [Ho, dSample, g]
    push_cast
    norm_num
  rw [npInterp_low _ _ _ h1 h2]
  exact dList_first

/-! ### The claims -/

/-- C1: the claimed FlowState invariant fails in the code.  At q = 5, ho = 5,
delta_h = 0 the velocities do satisfy U = q / depth, but the program's
upstream specific head (line 61, `Ho1 = ho + d1`) differs from
d1 + (q/d1)²/(2·g) ≈ 5.101, and the downstream head Ho2 differs from
d2 + (q/d2)²/(2·g): the code contradicts its own displayed equation
`Ho = d + U^2/2g`. -/
theorem C1_invariant_fails_on_code : ∃ s : FlowResult,
    computeStates 5 5 0 = some s ∧
    s.U1 = 5 / s.d1 ∧ s.U2 = 5 / s.d2 ∧
    s.Ho1 ≠ s.d1 + (5 / s.d1) ^ 2 / (2 * g) ∧
    s.Ho2 ≠ s.d2 + (5 / s.d2) ^ 2 / (2 * g) := by
  refine ⟨_, computeStates_5_5_0, ?_, ?_, ?_, ?_⟩ <;>
    · dsimp only
      norm_num [g]

/-- C2 counterexample: at q = 5, ho = 5, delta_h = 0 the code computes
Ho1 = 9860/981 ≈ 10.051, more than 0.01 below the claimed ≈ 10.101, and
d2 = 10, which exceeds d1 ≈ 5.051 by more than 4 instead of matching it
within interpolation tolerance. -/
theorem C2_counterexample : ∃ s : FlowResult, computeStates 5 5 0 = some s ∧
    s.Ho1 < 10101 / 1000 - 1 / 100 ∧ s.d1 + 4 < s.d2 := by
  refine ⟨_, computeStates_5_5_0, ?_, ?_⟩ <;>
    · dsimp only
      norm_num

/-- C2 amended: for q = 5, ho = 5, delta_h = 0 the program computes
d1 = 4955/981 ≈ 5.051 (as claimed), Ho1 = ho + d1 = 9860/981 ≈ 10.051,
Ho2 = Ho1, and d2 = 10 exactly — the last sampled depth, because Ho2
exceeds the last sampled specific head. -/
theorem C2_amended : ∃ s : FlowResult, computeStates 5 5 0 = some s ∧
    s.d1 = 4955 / 981 ∧
    5051 / 1000 - 1 / 1000 < s.d1 ∧ s.d1 < 5051 / 1000 + 1 / 1000 ∧
    s.Ho1 = 5 + s.d1 ∧ s.Ho2 = s.Ho1 ∧
    getQ (HoList 5) 99 < s.Ho2 ∧ s.d2 = 10 := by
  refine ⟨_, computeStates_5_5_0, ?_⟩
  dsimp only
  rw [HoList_five_last]
  norm_num

/-- C3 counterexample: for q = 5 the samples from index 14 on form a strictly
monotonic branch of the curve containing sample 50 (depth ≈ 5.055), yet
inverting the curve at that sample's specific head returns 0.01, more than 4
away from the depth — interpolation tolerance is violated by any reasonable
proportionality constant. -/
theorem C3_counterexample :
    List.Chain' (fun a b => a < b) ((HoList 5).drop 14) ∧
    getQ (HoList 5) 50 = Ho 5 (getQ dList 50) ∧
    npInterp (getQ (HoList 5) 50) (HoList 5) dList = 1 / 100 ∧
    npInterp (getQ (HoList 5) 50) (HoList 5) dList + 4 < getQ dList 50 := by
  refine ⟨HoList_five_chain_drop14, ?_, npInterp_at_sample50_five, ?_⟩
  · rw [getQ_HoList 5 50 (by norm_num), getQ_dList 50 (by norm_num)]
  · rw [npInterp_at_sample50_five, getQ_dList 50 (by norm_num)]
    simp only [dSample]
    push_cast
    norm_num

/-- C3 amended: the round-trip inversion is exact at every sample when the
sampled specific-head sequence is strictly increasing, as for q = 1/1000
(critical depth ≈ 0.0047 below the first sample); for q = 5 the inversion
returns only the first or last sampled depth and the round-trip fails on
the branch interior (see the counterexample). -/
theorem C3_amended_roundtrip (i : Fin 100) :
    npInterp (getQ (HoList (1 / 1000)) i) (HoList (1 / 1000)) dList =
      getQ dList i := by
  apply npInterp_at_sample
  · rw [HoList_length]
    norm_num
  · intro k hk
    rw [HoList_length] at hk
    exact HoList_small_adj k hk
  · rw [HoList_length]
    exact i.2

/-- C4: for q > 0 the curve function Ho(d) strictly decreases below the
critical depth (q²/g)^(1/3), strictly increases above it, attains its unique
minimum there, and the Froude number at the critical depth equals 1
exactly. -/
theorem C4_curve_shape (q : ℝ) (hq : 0 < q) :
    StrictAntiOn (HoR q) (Set.Ioc 0 (criticalDepth q)) ∧
    StrictMonoOn (HoR q) (Set.Ici (criticalDepth q)) ∧
    (∀ d : ℝ, 0 < d → d ≠ criticalDepth q → HoR q (criticalDepth q) < HoR q d) ∧
    froude q (criticalDepth q) = 1 := by
  refine ⟨HoR_strict_anti hq, HoR_strict_mono hq, ?_, froude_critical hq⟩
  intro d hd hne
  rcases lt_or_gt_of_ne hne with hlt | hgt
  · exact HoR_strict_anti hq (Set.mem_Ioc.mpr ⟨hd, hlt.le⟩)
      (Set.mem_Ioc.mpr ⟨criticalDepth_pos hq, le_refl _⟩) hlt
  · exact HoR_strict_mono hq (Set.mem_Ici.mpr (le_refl _))
      (Set.mem_Ici.mpr hgt.le) hgt

/-- Witness for C4 at the concrete discharge q = 3. -/
theorem C4_curve_shape_witness :
    (0 : ℝ) < 3 ∧
    (StrictAntiOn (HoR 3) (Set.Ioc 0 (criticalDepth 3)) ∧
     StrictMonoOn (HoR 3) (Set.Ici (criticalDepth 3)) ∧
     (∀ d : ℝ, 0 < d → d ≠ criticalDepth 3 → HoR 3 (criticalDepth 3) < HoR 3 d) ∧
     froude 3 (criticalDepth 3) = 1) :=
  ⟨by norm_num, C4_curve_shape 3 (by norm_num)⟩

/-- C5 counterexample: at q = 5, ho = 1, delta_h = 2 the code computes
Ho2 = 1250/981 ≈ 1.274 but d2 = 0.01 — the first sampled depth, whose own
specific head exceeds 1000 — and no positive depth at all has specific head
1250/981, since Ho 5 d > 2 everywhere; so d2 is not an interpolated depth at
which Ho(d) = 1.274. -/
theorem C5_counterexample : ∃ s : FlowResult, computeStates 5 1 2 = some s ∧
    s.Ho2 = 1250 / 981 ∧ s.d2 = 1 / 100 ∧ 1000 < Ho 5 s.d2 ∧
    (∀ d : ℚ, 0 < d → Ho 5 d ≠ s.Ho2) := by
  refine ⟨_, computeStates_5_1_2, rfl, rfl, Ho_five_first_sample_large, ?_⟩
  intro d hd heq
  have h2 := Ho_five_gt_two d hd
  rw [heq] at h2
  norm_num at h2

/-- C5 amended: for q = 5, ho = 1, delta_h = 2 the program computes
d1 = 2231/981 ≈ 2.274, Ho1 = 1 + d1 ≈ 3.274, Ho2 = Ho1 - 2 ≈ 1.274 (as
claimed), but d2 = 0.01 exactly — the first sampled depth, because Ho2 lies
below the first sampled specific head and below every point of the curve. -/
theorem C5_amended : ∃ s : FlowResult, computeStates 5 1 2 = some s ∧
    s.d1 = 2231 / 981 ∧
    2274 / 1000 - 1 / 1000 < s.d1 ∧ s.d1 < 2274 / 1000 + 1 / 1000 ∧
    s.Ho1 = 1 + s.d1 ∧ s.Ho2 = s.Ho1 - 2 ∧
    1274 / 1000 - 1 / 1000 < s.Ho2 ∧ s.Ho2 < 1274 / 1000 + 1 / 1000 ∧
    s.Ho2 < getQ (HoList 5) 99 ∧ s.Ho2 < getQ (HoList 5) 0 ∧
    s.d2 = 1 / 100 := by
  refine ⟨_, computeStates_5_1_2, ?_⟩
  dsimp only
  rw [HoList_five_last, HoList_five_first]
  norm_num

/-- C6 counterexample: at ho = 0 the computation does abort — the pure-Python
division in the upstream-depth formula raises ZeroDivisionError, so no NaN
result propagates to the downstream values. -/
theorem C6_counterexample : computeStates 5 0 0 = none :=
  computeStates_zero_ho 5 0

/-- C6 amended: when ho = 0 the computation aborts with a division-by-zero
error in the upstream-depth formula (for every q and delta_h); for every
ho > 0 no failure occurs anywhere in the computation. -/
theorem C6_amended :
    (∀ q delta_h : ℚ, computeStates q 0 delta_h = none) ∧
    (∀ q ho delta_h : ℚ, 0 < ho → (computeStates q ho delta_h).isSome = true) := by
  refine ⟨computeStates_zero_ho, ?_⟩
  intro q ho delta_h h
  rw [computeStates_eq q ho delta_h h]
  rfl

/-- Witness for C6: the abort at ho = 0 and a successful run at ho = 1. -/
theorem C6_amended_witness :
    computeStates 5 0 0 = none ∧ (computeStates 5 1 0).isSome = true :=
  ⟨C6_amended.1 5 0, C6_amended.2 5 1 0 (by norm_num)⟩

/-- C7: for every q ≥ 0 and ho > 0 the upstream depth is the direct algebraic
formula d1 = ho + q²/(2·g·ho²) with g = 9.81; no curve inversion is involved
in producing it. -/
theorem C7_upstream_formula (q ho delta_h : ℚ) (_hq : 0 ≤ q) (hho : 0 < ho) :
    ∃ s : FlowResult, computeStates q ho delta_h = some s ∧
      s.d1 = ho + q ^ 2 / (2 * g * ho ^ 2) :=
  ⟨_, computeStates_eq q ho delta_h hho, rfl⟩

/-- Witness for C7 at q = 5, ho = 5, delta_h = 0. -/
theorem C7_upstream_formula_witness :
    (0 : ℚ) ≤ 5 ∧ (0 : ℚ) < 5 ∧
    (∃ s : FlowResult, computeStates 5 5 0 = some s ∧
      s.d1 = 5 + 5 ^ 2 / (2 * g * 5 ^ 2)) :=
  ⟨by norm_num, by norm_num, C7_upstream_formula 5 5 0 (by norm_num) (by norm_num)⟩

/-- C8 counterexample: the first sampled depth equals depthMin = 0.01 itself,
so the samples are not drawn from the half-open interval (depthMin,
depthMax]: np.linspace includes its left endpoint. -/
theorem C8_counterexample :
    getQ dList 0 = 1 / 100 ∧ getQ dList 0 ∉ Set.Ioc (1 / 100 : ℚ) 10 := by
  refine ⟨dList_first, ?_⟩
  rw [dList_first]
  simp [Set.mem_Ioc]

/-- C8 amended: the curve has 100 samples, uniformly spaced with step
111/1100 over the closed interval [0.01, 10] (left endpoint included),
every sampled depth is strictly positive, and the specific head at each
sample equals Ho(d) = d + q²/(2·g·d²); the program hardcodes
depthMin = 0.01 > 0 and contains no failure path for depthMin ≤ 0. -/
theorem C8_amended :
    dList.length = 100 ∧
    (∀ i : Fin 100, getQ dList i = 1 / 100 + (i : ℕ) * (111 / 1100)) ∧
    (∀ i : Fin 100, 1 / 100 ≤ getQ dList i ∧ getQ dList i ≤ 10 ∧
      0 < getQ dList i) ∧
    (∀ i : Fin 99, getQ dList ((i : ℕ) + 1) - getQ dList (i : ℕ) = 111 / 1100) ∧
    (∀ q : ℚ, (HoList q).length = 100) ∧
    (∀ q : ℚ, ∀ i : Fin 100, getQ (HoList q) i = Ho q (getQ dList i)) := by
  refine ⟨dList_length, ?_, ?_, ?_, HoList_length, ?_⟩
  · intro i
    rw [getQ_dList i i.2, dSample]
  · intro i
    obtain ⟨h1, h2⟩ := dSample_bounds i i.2
    rw [getQ_dList i i.2]
    exact ⟨h1, h2, dSample_pos i⟩
  · intro i
    have hi := i.2
    rw [getQ_dList ((i : ℕ) + 1) (by omega), getQ_dList i (by omega)]
    rw [dSample, dSample]
    push_cast
    ring
  · intro q i
    rw [getQ_HoList q i i.2, getQ_dList i i.2]

/-- C9: at q = 0 the specific head of every depth equals the depth itself;
in particular the whole sampled specific-head column coincides with the
depth column. -/
theorem C9_zero_discharge : (∀ d : ℚ, Ho 0 d = d) ∧ HoList 0 = dList := by
  constructor
  · intro d
    simp [Ho]
  · rw [HoList, dList]
    refine List.map_congr_left ?_
    intro i _
    simp [Ho]

/-- C10: for every input with ho > 0 the computation succeeds and the
downstream depth returned by the curve inversion always lies in the sampled
range [0.01, 10] — whatever the target specific head — so d2 > 0, the
downstream velocity U2 = q/d2 involves no division by zero, and g·d2 > 0 so
the Froude denominator takes the square root of a positive number. -/
theorem C10_downstream_depth_safe (q ho delta_h : ℚ) (hho : 0 < ho) :
    ∃ s : FlowResult, computeStates q ho delta_h = some s ∧
      1 / 100 ≤ s.d2 ∧ s.d2 ≤ 10 ∧ 0 < s.d2 ∧ s.U2 = q / s.d2 ∧
      0 < g * s.d2 := by
  refine ⟨_, computeStates_eq q ho delta_h hho, ?_⟩
  have hmem := npInterp_mem (ho + (ho + q ^ 2 / (2 * g * ho ^ 2)) - delta_h)
      (HoList q) dList (1 / 100) 10
      (by rw [HoList_length]; norm_num)
      (by rw [dList_length, HoList_length])
      (fun i hi => by
        rw [dList_length] at hi
        rw [getQ_dList i hi]
        exact dSample_bounds i hi)
  dsimp only
  have hd2pos : 0 < npInterp (ho + (ho + q ^ 2 / (2 * g * ho ^ 2)) - delta_h)
      (HoList q) dList := lt_of_lt_of_le (by norm_num) hmem.1
  exact ⟨hmem.1, hmem.2, hd2pos, rfl, mul_pos g_pos hd2pos⟩

/-- Witness for C10 at q = 5, ho = 5, delta_h = 0. -/
theorem C10_downstream_depth_safe_witness :
    (0 : ℚ) < 5 ∧
    (∃ s : FlowResult, computeStates 5 5 0 = some s ∧
      1 / 100 ≤ s.d2 ∧ s.d2 ≤ 10 ∧ 0 < s.d2 ∧ s.U2 = 5 / s.d2 ∧
      0 < g * s.d2) :=
  ⟨by norm_num, C10_downstream_depth_safe 5 5 0 (by norm_num)⟩


/-- Witness for C3 amended: the exact round-trip at sample 50 for q = 1/1000. -/
theorem C3_amended_roundtrip_witness :
    npInterp (getQ (HoList (1 / 1000)) ((50 : Fin 100) : ℕ)) (HoList (1 / 1000)) dList =
      getQ dList ((50 : Fin 100) : ℕ) :=
  C3_amended_roundtrip 50

/-- Witness for C8 amended, instantiated at samples 5 and 6 and at q = 7. -/
theorem C8_amended_witness :
    dList.length = 100 ∧
    getQ dList ((5 : Fin 100) : ℕ) = 1 / 100 + ((5 : Fin 100) : ℕ) * (111 / 1100) ∧
    (1 / 100 ≤ getQ dList ((6 : Fin 100) : ℕ) ∧ getQ dList ((6 : Fin 100) : ℕ) ≤ 10 ∧
      0 < getQ dList ((6 : Fin 100) : ℕ)) ∧
    getQ dList (((5 : Fin 99) : ℕ) + 1) - getQ dList ((5 : Fin 99) : ℕ) = 111 / 1100 ∧
    (HoList 7).length = 100 ∧
    getQ (HoList 7) ((5 : Fin 100) : ℕ) = Ho 7 (getQ dList ((5 : Fin 100) : ℕ)) :=
  ⟨C8_amended.1, C8_amended.2.1 5, C8_amended.2.2.1 6, C8_amended.2.2.2.1 5,
    C8_amended.2.2.2.2.1 7, C8_amended.2.2.2.2.2 7 5⟩

/-- Witness for C9 at the depth 7/2. -/
theorem C9_zero_discharge_witness :
    Ho 0 (7 / 2) = 7 / 2 ∧ HoList 0 = dList :=
  ⟨C9_zero_discharge.1 (7 / 2), C9_zero_discharge.2⟩

end Main
